import Mathlib

/-!
Verification of the Reference Store and Snippet Locator of the
file-ref-tags extension (src/extension.ts), as a shallow embedding.

The store (class `ReferenceDataManager`) keeps an ordered list of
`ReferenceItem` records, persisted as a single JSON array; the locator
(`jumpToGlobalSnippet`) linearly scans a corpus of documents for a text
fragment, classifying the match count as zero, exactly one, or many.
-/

namespace FileRefTags

/-- The closed set of record kinds: the `type` field of `ReferenceItem`
(`'file' | 'file-snippet' | 'global-snippet' | 'comment'`). -/
inductive RefType where
  | file
  | fileSnippet
  | globalSnippet
  | comment
deriving DecidableEq, Repr

/-- The wire name of each kind, as it appears in the persisted JSON. -/
def typeToString : RefType → String
  | RefType.file => "file"
  | RefType.fileSnippet => "file-snippet"
  | RefType.globalSnippet => "global-snippet"
  | RefType.comment => "comment"

/-- Inverse of `typeToString`. -/
def typeFromString : String → Option RefType
  | "file" => some RefType.file
  | "file-snippet" => some RefType.fileSnippet
  | "global-snippet" => some RefType.globalSnippet
  | "comment" => some RefType.comment
  | _ => none

/-- One reference record, mirroring `interface ReferenceItem`: `id`,
`type`, `title`, optional `filePath`, `snippet`, `comment`, and the two
ISO-8601 timestamp strings. Optional TypeScript fields become `Option`. -/
structure ReferenceItem where
  id : String
  type : RefType
  title : String
  filePath : Option String
  snippet : Option String
  comment : Option String
  createdAt : String
  updatedAt : String
deriving DecidableEq, Repr

/-- The id scheme of `addReference`:
`id = "ref-" ++ Date.now() ++ "-" ++ random suffix`; the ambient
`Date.now()` value and the random suffix are passed in explicitly. -/
def makeId (timestamp : Nat) (randSuffix : String) : String :=
  "ref-" ++ toString timestamp ++ "-" ++ randSuffix

/-- `ReferenceDataManager.addReference` (extension.ts lines 46-57): builds
a new record from the caller's fields plus a generated id and the current
time `now` used for both timestamps, appends it at the end, persists, and
returns the new record. The ambient timestamp, random suffix and clock
reading are explicit parameters. Returns (new collection, created record). -/
def addReference (refs : List ReferenceItem) (ty : RefType) (title : String)
    (filePath snippet comment : Option String)
    (timestamp : Nat) (randSuffix : String) (now : String) :
    List ReferenceItem × ReferenceItem :=
  let newReference : ReferenceItem :=
    { id := makeId timestamp randSuffix
      type := ty
      title := title
      filePath := filePath
      snippet := snippet
      comment := comment
      createdAt := now
      updatedAt := now }
  (refs ++ [newReference], newReference)

/-- `ReferenceDataManager.updateOrder` (extension.ts lines 65-81): for each
id of `newOrder` in turn, push the first stored record with that id if one
exists; then push every stored record whose id does not occur in
`newOrder`, in their stored order; persist the result. -/
def updateOrder (refs : List ReferenceItem) (newOrder : List String) :
    List ReferenceItem :=
  newOrder.filterMap (fun id => refs.find? (fun r => r.id == id))
    ++ refs.filter (fun r => !(newOrder.contains r.id))

/-- `ReferenceDataManager.deleteReference` (extension.ts lines 84-87):
keep exactly the records whose id differs from `id`; persist. -/
def deleteReference (refs : List ReferenceItem) (id : String) :
    List ReferenceItem :=
  refs.filter (fun r => !(r.id == id))

/-- `ReferenceDataManager.updateReferenceTitle` (extension.ts lines 90-97):
`find` the first record with the given id; when found, mutate that record's
`title` and `updatedAt` in place and call `saveReferences()`; when absent,
do nothing — in particular `saveReferences()` is not called. The in-place
mutation of the found record is rendered as updating the first matching
list element; the returned Bool records whether `saveReferences()` ran. -/
def updateReferenceTitle : List ReferenceItem → String → String → String →
    List ReferenceItem × Bool
  | [], _, _, _ => ([], false)
  | r :: rs, id, title, now =>
    if r.id == id then
      ({ r with title := title, updatedAt := now } :: rs, true)
    else
      let res := updateReferenceTitle rs id title now
      (r :: res.1, res.2)

/-! ### Persistence

`saveReferences` writes `JSON.stringify(this.references, null, 2)` to the
backing file; `loadReferences` reads the file (when it exists) and assigns
`JSON.parse(data)` to `this.references`, falling back to the empty list
when reading or parsing throws. Serialization is modelled at the level of
JSON values: `JSON.parse` inverts `JSON.stringify` on plain JSON data, so
the document written for a collection is the JSON value `refsToJson refs`,
and the state of the backing file at load time is a `BackingFile`. -/

/-- A JSON value. -/
inductive Json where
  | null
  | bool (b : Bool)
  | num (n : Int)
  | str (s : String)
  | arr (items : List Json)
  | obj (fields : List (String × Json))

/-- One record as `JSON.stringify` renders it: an object holding the
fields in insertion order, with `undefined` optional fields omitted
(JS `JSON.stringify` drops keys whose value is `undefined`). -/
def itemToJson (r : ReferenceItem) : Json :=
  Json.obj
    ([("type", Json.str (typeToString r.type)), ("title", Json.str r.title)]
      ++ (match r.filePath with
          | some p => [("filePath", Json.str p)]
          | none => [])
      ++ (match r.snippet with
          | some s => [("snippet", Json.str s)]
          | none => [])
      ++ (match r.comment with
          | some c => [("comment", Json.str c)]
          | none => [])
      ++ [("id", Json.str r.id), ("createdAt", Json.str r.createdAt),
          ("updatedAt", Json.str r.updatedAt)])

/-- The persisted document for a collection: a single JSON array of record
objects (`JSON.stringify(this.references, null, 2)`, viewed as a value). -/
def refsToJson (refs : List ReferenceItem) : Json :=
  Json.arr (refs.map itemToJson)

/-- Look a key up in an object's field list and require a JSON string. -/
def getStr (fields : List (String × Json)) (key : String) : Option String :=
  match fields.lookup key with
  | some (Json.str s) => some s
  | _ => none

/-- Reading one parsed object back as a `ReferenceItem`. The source casts
the parsed value without validation; this decoder spells out the shape the
cast assumes (the shape `itemToJson` produces), and answers `none` on any
other document — a case `saveReferences` never writes. A missing optional
key is read as the absent field, exactly as the undefined JS property. -/
def itemFromJson : Json → Option ReferenceItem
  | Json.obj fields => do
    let id ← getStr fields "id"
    let tyName ← getStr fields "type"
    let ty ← typeFromString tyName
    let title ← getStr fields "title"
    let createdAt ← getStr fields "createdAt"
    let updatedAt ← getStr fields "updatedAt"
    some { id := id, type := ty, title := title
           filePath := getStr fields "filePath"
           snippet := getStr fields "snippet"
           comment := getStr fields "comment"
           createdAt := createdAt, updatedAt := updatedAt }
  | _ => none

/-- Decode a list of record objects, failing when any element fails. -/
def itemsFromJson : List Json → Option (List ReferenceItem)
  | [] => some []
  | j :: js => do
    let r ← itemFromJson j
    let rs ← itemsFromJson js
    some (r :: rs)

/-- Reading a whole parsed document back as the collection. -/
def refsFromJson : Json → Option (List ReferenceItem)
  | Json.arr items => itemsFromJson items
  | _ => none

/-- The state of the backing file as `loadReferences` finds it:
missing (`fs.existsSync` is false), unreadable (`fs.readFileSync` throws),
malformed (`JSON.parse` throws), or parsed to a JSON value. -/
inductive BackingFile where
  | absent
  | unreadable (error : String)
  | malformed (error : String)
  | parsed (document : Json)

/-- `ReferenceDataManager.loadReferences` (extension.ts lines 24-34):
when the file is absent nothing happens and the initial empty collection
stands; when reading or parsing throws, the `catch` logs
`console.error('Failed to load references:', error)` and resets the
collection to empty; otherwise the parsed value is assigned unchecked
(decoded here by `refsFromJson`; a document not of the saved shape is
mapped to the empty collection, a case no save ever produces). Returns the
resulting collection together with the list of logged error messages; the
function is total, so no failure escapes to the caller. -/
def loadReferences : BackingFile → List ReferenceItem × List String
  | BackingFile.absent => ([], [])
  | BackingFile.unreadable e => ([], ["Failed to load references: " ++ e])
  | BackingFile.malformed e => ([], ["Failed to load references: " ++ e])
  | BackingFile.parsed j => ((refsFromJson j).getD [], [])

/-- `ReferenceDataManager.saveReferences` (extension.ts lines 37-43): the
document written is the serialized collection; a later load finds the file
in state `BackingFile.parsed (saveReferences refs)`, since `JSON.parse`
inverts `JSON.stringify` on JSON values. -/
def saveReferences (refs : List ReferenceItem) : Json :=
  refsToJson refs

/-- One mutating store operation, with the ambient inputs (timestamp,
random suffix, clock reading) made explicit. -/
inductive StoreOp where
  | add (ty : RefType) (title : String) (filePath snippet comment : Option String)
      (timestamp : Nat) (randSuffix : String) (now : String)
  | del (id : String)
  | rename (id title now : String)
  | reorder (idSequence : List String)

/-- Effect of one operation on the collection. -/
def applyStoreOp (refs : List ReferenceItem) : StoreOp → List ReferenceItem
  | StoreOp.add ty title fp sn cm ts suffix now =>
    (addReference refs ty title fp sn cm ts suffix now).1
  | StoreOp.del id => deleteReference refs id
  | StoreOp.rename id title now => (updateReferenceTitle refs id title now).1
  | StoreOp.reorder seq => updateOrder refs seq

/-- Effect of a sequence of operations, applied left to right to the
empty collection a fresh store starts from. -/
def applyStoreOps (ops : List StoreOp) : List ReferenceItem :=
  ops.foldl applyStoreOp []

/-! ### Snippet Locator

`jumpToGlobalSnippet` (extension.ts lines 496-547) fetches the corpus with
`findFiles`, then loops over it: each member is opened
(`openTextDocument`, inside `try`), its text searched with
`text.indexOf(snippet)`; a hit bumps `matchCount`, overwrites
`matchFile`/`matchStartPosition`/`matchEndPosition` with this member and
the first occurrence, and breaks once `matchCount > 1`; a member whose
open throws is logged and skipped by `continue`. Afterwards the four
locals classify the outcome. Text is a list of characters;
`doc.positionAt` is kept as the character offset it is applied to. -/

/-- Whether `pat` occurs at the very start of `text`. -/
def beginsWith : List Char → List Char → Bool
  | [], _ => true
  | _ :: _, [] => false
  | p :: ps, t :: ts => p == t && beginsWith ps ts

/-- JS `text.indexOf(pat)`: the index of the first occurrence of `pat` in
`text`, `none` standing for the JS result `-1`. -/
def indexOfSub (pat : List Char) : List Char → Option Nat
  | [] => if beginsWith pat [] then some 0 else none
  | c :: rest =>
    if beginsWith pat (c :: rest) then some 0
    else (indexOfSub pat rest).map (fun n => n + 1)

/-- Outcome of opening one corpus member: its full text, or the error the
accessor threw. -/
inductive DocRead where
  | ok (text : List Char)
  | failure (error : String)
deriving DecidableEq, Repr

/-- One corpus member: its uri and what opening it yields. -/
structure Doc where
  uri : String
  read : DocRead
deriving DecidableEq, Repr

/-- The four loop locals of `jumpToGlobalSnippet`: `matchCount`,
`matchFile`, `matchStartPosition`, `matchEndPosition` (positions kept as
character offsets). -/
structure MatchState where
  matchCount : Nat
  matchFile : Option String
  matchStart : Option Nat
  matchEnd : Option Nat
deriving DecidableEq, Repr

/-- The locals before the loop: count 0, everything undefined. -/
def initMatchState : MatchState :=
  { matchCount := 0, matchFile := none, matchStart := none, matchEnd := none }

/-- Whether the code's per-member test fires: the member opens and
`indexOf` does not answer `-1`. -/
def docMatches (snippet : List Char) (d : Doc) : Bool :=
  match d.read with
  | DocRead.ok text => (indexOfSub snippet text).isSome
  | DocRead.failure _ => false

/-- The scan loop of `jumpToGlobalSnippet` (extension.ts lines 508-528).
Besides the final `MatchState` it returns two traces: the uris whose
accessor was invoked (`openTextDocument`, one invocation per iteration
reached) and the uris logged by the `catch` branch, both in scan order. -/
def scanLoop (snippet : List Char) : MatchState → List Doc →
    MatchState × List String × List String
  | st, [] => (st, [], [])
  | st, d :: ds =>
    match d.read with
    | DocRead.failure _ =>
      let r := scanLoop snippet st ds
      (r.1, d.uri :: r.2.1, d.uri :: r.2.2)
    | DocRead.ok text =>
      match indexOfSub snippet text with
      | none =>
        let r := scanLoop snippet st ds
        (r.1, d.uri :: r.2.1, r.2.2)
      | some i =>
        let st2 : MatchState :=
          { matchCount := st.matchCount + 1, matchFile := some d.uri
            matchStart := some i, matchEnd := some (i + snippet.length) }
        if st2.matchCount > 1 then (st2, [d.uri], [])
        else
          let r := scanLoop snippet st2 ds
          (r.1, d.uri :: r.2.1, r.2.2)

/-- The three outcomes the code distinguishes after the loop. -/
inductive LocateResult where
  | UniqueMatch (uri : String) (startOffset endOffset : Nat)
  | NoMatch
  | AmbiguousMatch
deriving DecidableEq, Repr

/-- The post-loop classification (extension.ts lines 532-542):
`matchCount === 1` with all three locals defined jumps to the match,
`matchCount === 0` warns that nothing was found, anything else warns that
the snippet is no longer globally unique. -/
def classify : MatchState → LocateResult
  | { matchCount := 1, matchFile := some u, matchStart := some s,
      matchEnd := some e } => LocateResult.UniqueMatch u s e
  | { matchCount := 0, matchFile := _, matchStart := _, matchEnd := _ } =>
    LocateResult.NoMatch
  | _ => LocateResult.AmbiguousMatch

/-- The whole locate call: run the loop from the initial locals and
classify the result. -/
def locate (snippet : List Char) (corpus : List Doc) : LocateResult :=
  classify (scanLoop snippet initMatchState corpus).1

/-- The accessor-invocation trace of a locate call. -/
def locateOpened (snippet : List Char) (corpus : List Doc) : List String :=
  (scanLoop snippet initMatchState corpus).2.1

/-- The catch-branch log trace of a locate call. -/
def locateLogged (snippet : List Char) (corpus : List Doc) : List String :=
  (scanLoop snippet initMatchState corpus).2.2

/-- The uris of the corpus members whose accessor fails, in corpus
order. -/
def failedUris (docs : List Doc) : List String :=
  docs.filterMap fun d =>
    match d.read with
    | DocRead.failure _ => some d.uri
    | DocRead.ok _ => none

/-! ### Concrete inputs used by witnesses and counterexamples -/

/-- A comment record with id `A`. -/
def itemA : ReferenceItem :=
  { id := "A", type := RefType.comment, title := "alpha", filePath := none,
    snippet := none, comment := none, createdAt := "t0", updatedAt := "t0" }

/-- A file record with id `B`. -/
def itemB : ReferenceItem :=
  { id := "B", type := RefType.file, title := "beta", filePath := some "/b.ts",
    snippet := none, comment := none, createdAt := "t1", updatedAt := "t1" }

/-- A global-snippet record with id `C`. -/
def itemC : ReferenceItem :=
  { id := "C", type := RefType.globalSnippet, title := "gamma",
    filePath := none, snippet := some "foo", comment := none,
    createdAt := "t2", updatedAt := "t2" }

/-- A second record sharing id `A` with `itemA`. -/
def itemA2 : ReferenceItem :=
  { id := "A", type := RefType.comment, title := "alpha-copy", filePath := none,
    snippet := none, comment := none, createdAt := "t3", updatedAt := "t3" }

/-- A store holding records `A`, `B`, `C`. -/
def refsABC : List ReferenceItem := [itemA, itemB, itemC]

/-- Three readable corpus members, each containing the character `z`. -/
def corpusZZZ : List Doc :=
  [{ uri := "A", read := DocRead.ok ['z'] },
   { uri := "B", read := DocRead.ok ['z'] },
   { uri := "C", read := DocRead.ok ['z'] }]

/-- The fragment `ab`. -/
def fragAB : List Char := ['a', 'b']

/-- One readable corpus member whose text `xab` contains `ab` once. -/
def docD1 : Doc := { uri := "d1", read := DocRead.ok ['x', 'a', 'b'] }

/-! ### Reference Store theorems -/

/-- Claim C4: `addReference` builds the new record from the generated id
and the single clock reading `now` used for both timestamps, carries the
caller's kind, title and optional fields over unchanged, appends the
record at the end of the sequence — so every previously stored record,
including any record with identical content, is kept — and returns it. -/
theorem addReference_spec (refs : List ReferenceItem) (ty : RefType)
    (title : String) (fp sn cm : Option String) (ts : Nat)
    (suffix now : String) :
    (addReference refs ty title fp sn cm ts suffix now).1
        = refs ++ [(addReference refs ty title fp sn cm ts suffix now).2]
      ∧ (addReference refs ty title fp sn cm ts suffix now).2.id
          = makeId ts suffix
      ∧ (addReference refs ty title fp sn cm ts suffix now).2.createdAt = now
      ∧ (addReference refs ty title fp sn cm ts suffix now).2.updatedAt = now
      ∧ (addReference refs ty title fp sn cm ts suffix now).2.type = ty
      ∧ (addReference refs ty title fp sn cm ts suffix now).2.title = title
      ∧ (addReference refs ty title fp sn cm ts suffix now).2.filePath = fp
      ∧ (addReference refs ty title fp sn cm ts suffix now).2.snippet = sn
      ∧ (addReference refs ty title fp sn cm ts suffix now).2.comment = cm :=
  ⟨rfl, rfl, rfl, rfl, rfl, rfl, rfl, rfl, rfl⟩

/-- Claim C9: deleting an id held by no stored record leaves the
collection unchanged; `deleteReference` is a total function, so no error
is raised. -/
theorem deleteReference_missing_id (refs : List ReferenceItem) (id : String)
    (h : ∀ r ∈ refs, r.id ≠ id) :
    deleteReference refs id = refs := by
  unfold deleteReference
  rw [List.filter_eq_self]
  intro r hr
  simpa using h r hr

/-- Witness for C9: deleting the absent id `Z` from `[itemA]`. -/
theorem deleteReference_missing_id_witness :
    (∀ r ∈ [itemA], r.id ≠ "Z") ∧ deleteReference [itemA] "Z" = [itemA] :=
  ⟨by decide, deleteReference_missing_id [itemA] "Z" (by decide)⟩

/-- Claim C10: after `deleteReference refs id` no record with the given id
remains — the filter drops every matching record, not only the first —
and the survivors are exactly the records with other ids, kept in their
prior relative order (the result is a sublist of the input). -/
theorem deleteReference_removes_matching (refs : List ReferenceItem)
    (id : String) :
    (∀ r ∈ deleteReference refs id, r.id ≠ id)
      ∧ List.Sublist (deleteReference refs id) refs
      ∧ ∀ r ∈ refs, r.id ≠ id → r ∈ deleteReference refs id := by
  refine ⟨?_, List.filter_sublist refs, ?_⟩
  · intro r hr
    have := (List.mem_filter.mp hr).2
    simpa using this
  · intro r hr hne
    exact List.mem_filter.mpr ⟨hr, by simpa using hne⟩

/-- Witness for C10: in a store where two records share id `A`, deleting
`A` removes both and keeps `itemB`. -/
theorem deleteReference_removes_matching_witness :
    deleteReference [itemA, itemB, itemA2] "A" = [itemB]
      ∧ itemB ∈ deleteReference [itemA, itemB, itemA2] "A" :=
  ⟨by decide,
   (deleteReference_removes_matching [itemA, itemB, itemA2] "A").2.2 itemB
     (by decide) (by decide)⟩

/-- Claim C6: a missing backing file leaves the store empty with nothing
logged; an unreadable or unparsable file leaves the store empty with the
error logged; `loadReferences` is a total function into a plain pair, so
no load failure reaches the caller as an exception. -/
theorem loadReferences_degrades :
    loadReferences BackingFile.absent = ([], [])
      ∧ (∀ e, loadReferences (BackingFile.unreadable e)
            = ([], ["Failed to load references: " ++ e]))
      ∧ (∀ e, loadReferences (BackingFile.malformed e)
            = ([], ["Failed to load references: " ++ e])) :=
  ⟨rfl, fun _ => rfl, fun _ => rfl⟩

/-- Counterexample to claim C5 as stated: renaming an id absent from the
store does not persist the collection — `saveReferences()` sits inside the
found branch (extension.ts line 95), so the no-op case issues no save. -/
theorem updateReferenceTitle_persist_cex :
    ¬ ((updateReferenceTitle [] "missing" "t1" "n1").2 = true) := by
  decide

/-- Claim C5 (amended): when a record with the id exists, rename updates
the first such record's `title` and `updatedAt`, leaves its remaining
fields and every other record unchanged, and persists; when no record with
the id exists, the collection is unchanged and no save is performed. -/
theorem updateReferenceTitle_spec (refs : List ReferenceItem)
    (id title now : String) :
    ((∃ r ∈ refs, r.id = id) →
      ∃ pre r suf, refs = pre ++ r :: suf
        ∧ (∀ x ∈ pre, x.id ≠ id)
        ∧ r.id = id
        ∧ updateReferenceTitle refs id title now
            = (pre ++ { r with title := title, updatedAt := now } :: suf,
               true))
    ∧ ((∀ r ∈ refs, r.id ≠ id) →
        updateReferenceTitle refs id title now = (refs, false)) := by
  induction refs with
  | nil =>
    refine ⟨?_, fun _ => rfl⟩
    rintro ⟨r, hr, -⟩
    cases hr
  | cons a as ih =>
    constructor
    · rintro ⟨r, hr, hrid⟩
      by_cases ha : a.id = id
      · exact ⟨[], a, as, rfl, by simp, ha, by simp [updateReferenceTitle, ha]⟩
      · have hmem : ∃ r ∈ as, r.id = id := by
          rcases List.mem_cons.mp hr with h | h
          · exact absurd hrid (h ▸ ha)
          · exact ⟨r, h, hrid⟩
        obtain ⟨pre, r0, suf, heq, hpre, hrid0, hres⟩ := ih.1 hmem
        refine ⟨a :: pre, r0, suf, by rw [heq, List.cons_append], ?_, hrid0, ?_⟩
        · intro x hx
          rcases List.mem_cons.mp hx with h | h
          · exact h ▸ ha
          · exact hpre x h
        · simp [updateReferenceTitle, ha, hres]
    · intro hall
      have ha : ¬ (a.id = id) := hall a (List.mem_cons_self a as)
      have ht := ih.2 fun r hr => hall r (List.mem_cons_of_mem a hr)
      simp [updateReferenceTitle, ha, ht]

/-- Witness for C5 (amended): renaming `B` in `[itemA, itemB]` updates
that record and persists. -/
theorem updateReferenceTitle_spec_witness :
    (∃ r ∈ [itemA, itemB], r.id = "B")
      ∧ ∃ pre r suf, ([itemA, itemB] : List ReferenceItem) = pre ++ r :: suf
          ∧ (∀ x ∈ pre, x.id ≠ "B")
          ∧ r.id = "B"
          ∧ updateReferenceTitle [itemA, itemB] "B" "beta2" "t9"
              = (pre ++ { r with title := "beta2", updatedAt := "t9" } :: suf,
                 true) :=
  ⟨by decide,
   (updateReferenceTitle_spec [itemA, itemB] "B" "beta2" "t9").1 (by decide)⟩

/-- Decoding a serialized record recovers it exactly. -/
theorem itemFromJson_itemToJson (r : ReferenceItem) :
    itemFromJson (itemToJson r) = some r := by
  obtain ⟨id, ty, title, fp, sn, cm, ca, ua⟩ := r
  cases fp <;> cases sn <;> cases cm <;> cases ty <;> rfl

/-- Decoding a serialized record list recovers it exactly. -/
theorem itemsFromJson_map (refs : List ReferenceItem) :
    itemsFromJson (refs.map itemToJson) = some refs := by
  induction refs with
  | nil => rfl
  | cons r rs ih =>
    simp [itemsFromJson, itemFromJson_itemToJson, ih]

/-- Decoding a serialized collection recovers it exactly. -/
theorem refsFromJson_refsToJson (refs : List ReferenceItem) :
    refsFromJson (refsToJson refs) = some refs := by
  simp [refsFromJson, refsToJson, itemsFromJson_map]

/-- Claim C3: after any sequence of add, delete, rename and reorder
operations, saving the collection and loading the saved document yields
back exactly the in-memory collection — same ids, kinds, field values and
order — with nothing logged. -/
theorem save_load_roundtrip (ops : List StoreOp) :
    loadReferences (BackingFile.parsed (saveReferences (applyStoreOps ops)))
      = (applyStoreOps ops, []) := by
  simp [loadReferences, saveReferences, refsFromJson_refsToJson]

/-- Counterexample to claim C1 as stated, over every store state: when two
records share id `A`, reordering by `["A"]` keeps only the first of them —
the first loop finds only the first record per requested id, and the
second loop drops every record whose id is mentioned — so the record
`itemA2`, present before the call, is absent afterwards. -/
theorem updateOrder_cex :
    itemA2 ∈ ([itemA, itemA2] : List ReferenceItem)
      ∧ itemA2 ∉ updateOrder [itemA, itemA2] ["A"] := by
  decide

/-- The ids placed by the first loop of `updateOrder` are exactly the
requested ids that exist in the store, in request order. -/
theorem updateOrder_front_ids (refs : List ReferenceItem)
    (newOrder : List String) :
    (newOrder.filterMap (fun id => refs.find? (fun r => r.id == id))).map
        ReferenceItem.id
      = newOrder.filter (fun id => refs.any (fun r => r.id == id)) := by
  induction newOrder with
  | nil => rfl
  | cons i rest ih =>
    cases h : refs.find? (fun r => r.id == i) with
    | none =>
      have hany : refs.any (fun r => r.id == i) = false := by
        rw [List.any_eq_false]
        intro r hr
        have := List.find?_eq_none.mp h r hr
        simpa using this
      simp [List.filterMap_cons, h, List.filter_cons, hany, ih]
    | some r =>
      have hid := List.find?_some h
      have hany : refs.any (fun r => r.id == i) = true :=
        List.any_eq_true.mpr ⟨r, List.mem_of_find?_eq_some h, hid⟩
      simp [List.filterMap_cons, h, List.filter_cons, hany, ih, eq_of_beq hid]

/-- Claim C1 (amended): on a store whose record ids are pairwise distinct
— the data model's id-uniqueness invariant — `updateOrder` produces the
records named by `newOrder` in request order, ids absent from the store
skipped, followed by the unnamed records in their prior relative order (a
sublist of the store), and no stored record is lost. -/
theorem updateOrder_spec (refs : List ReferenceItem) (newOrder : List String)
    (hids : (refs.map ReferenceItem.id).Nodup) :
    (∃ front,
        updateOrder refs newOrder
            = front ++ refs.filter (fun r => !(newOrder.contains r.id))
          ∧ front.map ReferenceItem.id
              = newOrder.filter (fun id => refs.any (fun r => r.id == id))
          ∧ ∀ r ∈ front, r ∈ refs)
      ∧ List.Sublist (refs.filter (fun r => !(newOrder.contains r.id))) refs
      ∧ ∀ r ∈ refs, r ∈ updateOrder refs newOrder := by
  refine ⟨⟨newOrder.filterMap (fun id => refs.find? (fun r => r.id == id)),
      rfl, updateOrder_front_ids refs newOrder, ?_⟩,
    List.filter_sublist refs, ?_⟩
  · intro r hr
    obtain ⟨i, _, hf⟩ := List.mem_filterMap.mp hr
    exact List.mem_of_find?_eq_some hf
  · intro r hr
    by_cases hc : newOrder.contains r.id = true
    · have hmem : r.id ∈ newOrder := by
        simpa [List.contains] using List.elem_iff.mp hc
      obtain ⟨r0, hf⟩ : ∃ r0, refs.find? (fun x => x.id == r.id) = some r0 := by
        cases hf : refs.find? (fun x => x.id == r.id) with
        | some r0 => exact ⟨r0, rfl⟩
        | none =>
          have := List.find?_eq_none.mp hf r hr
          simp at this
      have hbeq := List.find?_some hf
      have hr0id : r0.id = r.id := eq_of_beq hbeq
      have hr0 : r0 = r :=
        List.inj_on_of_nodup_map hids (List.mem_of_find?_eq_some hf) hr hr0id
      unfold updateOrder
      exact List.mem_append.mpr
        (Or.inl (List.mem_filterMap.mpr ⟨r.id, hmem, by rw [hf, hr0]⟩))
    · have hkeep : (!(newOrder.contains r.id)) = true := by
        simpa using hc
      unfold updateOrder
      exact List.mem_append.mpr (Or.inr (List.mem_filter.mpr ⟨hr, hkeep⟩))

/-- Witness for C1: reordering the store `[A, B, C]` by the partial
request `[C]`. -/
theorem updateOrder_spec_witness :
    ((refsABC.map ReferenceItem.id).Nodup)
      ∧ ((∃ front,
            updateOrder refsABC ["C"]
                = front ++ refsABC.filter (fun r => !(["C"].contains r.id))
              ∧ front.map ReferenceItem.id
                  = ["C"].filter (fun id => refsABC.any (fun r => r.id == id))
              ∧ ∀ r ∈ front, r ∈ refsABC)
          ∧ List.Sublist (refsABC.filter (fun r => !(["C"].contains r.id)))
              refsABC
          ∧ ∀ r ∈ refsABC, r ∈ updateOrder refsABC ["C"]) :=
  ⟨by decide, updateOrder_spec refsABC ["C"] (by decide)⟩

/-! ### Snippet Locator theorems -/

/-- A successful `indexOf` answer is an occurrence, and the first one:
no smaller position carries an occurrence. -/
theorem indexOfSub_some (pat : List Char) :
    ∀ (text : List Char) (i : Nat), indexOfSub pat text = some i →
      beginsWith pat (text.drop i) = true
        ∧ ∀ j, j < i → beginsWith pat (text.drop j) = false := by
  intro text
  induction text with
  | nil =>
    intro i h
    unfold indexOfSub at h
    by_cases hb : beginsWith pat [] = true
    · rw [if_pos hb] at h
      injection h with h
      subst h
      exact ⟨hb, fun j hj => absurd hj (Nat.not_lt_zero j)⟩
    · rw [if_neg hb] at h
      exact absurd h (by simp)
  | cons c rest ih =>
    intro i h
    by_cases hb : beginsWith pat (c :: rest) = true
    · rw [indexOfSub, if_pos hb] at h
      injection h with h
      subst h
      exact ⟨hb, fun j hj => absurd hj (Nat.not_lt_zero j)⟩
    · rw [indexOfSub, if_neg hb] at h
      cases hf : indexOfSub pat rest with
      | none => rw [hf] at h; simp at h
      | some i0 =>
        rw [hf] at h
        simp at h
        subst h
        obtain ⟨h1, h2⟩ := ih i0 hf
        refine ⟨by simpa using h1, ?_⟩
        intro j hj
        cases j with
        | zero =>
          simpa using Bool.eq_false_iff.mpr hb
        | succ j0 =>
          have := h2 j0 (Nat.lt_of_succ_lt_succ hj)
          simpa using this

/-- An occurrence anywhere makes `indexOf` succeed. -/
theorem indexOfSub_isSome (pat : List Char) :
    ∀ (text : List Char) (i : Nat), beginsWith pat (text.drop i) = true →
      (indexOfSub pat text).isSome = true := by
  intro text
  induction text with
  | nil =>
    intro i h
    have hb : beginsWith pat [] = true := by simpa using h
    unfold indexOfSub
    rw [if_pos hb]
    rfl
  | cons c rest ih =>
    intro i h
    by_cases hb : beginsWith pat (c :: rest) = true
    · simp [indexOfSub, hb]
    · cases i with
      | zero => exact absurd (by simpa using h) hb
      | succ i0 =>
        have hrest := ih i0 (by simpa using h)
        rw [indexOfSub, if_neg hb]
        simpa using hrest

/-- The per-member test of the loop fires exactly on the members that
open successfully and contain the fragment as a contiguous substring. -/
theorem docMatches_iff (snippet : List Char) (d : Doc) :
    docMatches snippet d = true
      ↔ ∃ text i, d.read = DocRead.ok text
          ∧ beginsWith snippet (text.drop i) = true := by
  cases hd : d.read with
  | failure e =>
    simp [docMatches, hd]
  | ok text =>
    simp only [docMatches, hd]
    constructor
    · intro h
      obtain ⟨i, hi⟩ := Option.isSome_iff_exists.mp h
      obtain ⟨h1, -⟩ := indexOfSub_some snippet text i hi
      exact ⟨text, i, rfl, h1⟩
    · rintro ⟨t, i, ht, hocc⟩
      injection ht with ht
      subst ht
      exact indexOfSub_isSome snippet _ i hocc

/-- One loop step on a member whose accessor throws. -/
theorem scanLoop_cons_failure (snippet : List Char) (st : MatchState)
    (u e : String) (ds : List Doc) :
    scanLoop snippet st ({ uri := u, read := DocRead.failure e } :: ds)
      = ((scanLoop snippet st ds).1,
         u :: (scanLoop snippet st ds).2.1,
         u :: (scanLoop snippet st ds).2.2) := rfl

/-- One loop step on a readable member that does not contain the
fragment. -/
theorem scanLoop_cons_none (snippet : List Char) (st : MatchState)
    (u : String) (text : List Char) (ds : List Doc)
    (h : indexOfSub snippet text = none) :
    scanLoop snippet st ({ uri := u, read := DocRead.ok text } :: ds)
      = ((scanLoop snippet st ds).1,
         u :: (scanLoop snippet st ds).2.1,
         (scanLoop snippet st ds).2.2) := by
  simp [scanLoop, h]

/-- One loop step on a readable member containing the fragment at first
index `i`: the locals are overwritten and the loop either breaks (second
match) or continues. -/
theorem scanLoop_cons_some (snippet : List Char) (st : MatchState)
    (u : String) (text : List Char) (ds : List Doc) (i : Nat)
    (h : indexOfSub snippet text = some i) :
    scanLoop snippet st ({ uri := u, read := DocRead.ok text } :: ds)
      = (if st.matchCount + 1 > 1 then
          ({ matchCount := st.matchCount + 1, matchFile := some u,
             matchStart := some i, matchEnd := some (i + snippet.length) },
           [u], [])
        else
          ((scanLoop snippet
              { matchCount := st.matchCount + 1, matchFile := some u,
                matchStart := some i, matchEnd := some (i + snippet.length) }
              ds).1,
           u :: (scanLoop snippet
              { matchCount := st.matchCount + 1, matchFile := some u,
                matchStart := some i, matchEnd := some (i + snippet.length) }
              ds).2.1,
           (scanLoop snippet
              { matchCount := st.matchCount + 1, matchFile := some u,
                matchStart := some i, matchEnd := some (i + snippet.length) }
              ds).2.2)) := by
  simp [scanLoop, h]

/-- A stretch of the corpus with no matching member leaves the locals
untouched; every member of it is opened and the failing ones are
logged. -/
theorem scanLoop_no_match (snippet : List Char) :
    ∀ (docs : List Doc) (st : MatchState),
      (∀ d ∈ docs, docMatches snippet d = false) →
      scanLoop snippet st docs = (st, docs.map Doc.uri, failedUris docs) := by
  intro docs
  induction docs with
  | nil => intro st _; rfl
  | cons x xs ih =>
    intro st h
    obtain ⟨u, rd⟩ := x
    have hd := h _ (List.mem_cons_self _ xs)
    have hds : ∀ y ∈ xs, docMatches snippet y = false :=
      fun y hy => h y (List.mem_cons_of_mem _ hy)
    cases rd with
    | failure e =>
      rw [scanLoop_cons_failure, ih st hds]
      simp [failedUris, List.filterMap_cons]
    | ok text =>
      have hnone : indexOfSub snippet text = none := by
        cases ho : indexOfSub snippet text with
        | none => rfl
        | some k => simp [docMatches, ho] at hd
      rw [scanLoop_cons_none snippet st u text xs hnone, ih st hds]
      simp [failedUris, List.filterMap_cons]

/-- When exactly one corpus member matches, the loop never breaks and the
final locals describe that member and the first occurrence in it. -/
theorem scanLoop_single (snippet : List Char) :
    ∀ (docs : List Doc) (st : MatchState) (d : Doc),
      st.matchCount = 0 →
      docs.filter (docMatches snippet) = [d] →
      ∃ text i, d.read = DocRead.ok text
        ∧ indexOfSub snippet text = some i
        ∧ (scanLoop snippet st docs).1
            = { matchCount := 1, matchFile := some d.uri,
                matchStart := some i,
                matchEnd := some (i + snippet.length) } := by
  intro docs
  induction docs with
  | nil => intro st d _ h; simp at h
  | cons x xs ih =>
    intro st d h0 h
    obtain ⟨u, rd⟩ := x
    by_cases hm : docMatches snippet { uri := u, read := rd } = true
    · rw [List.filter_cons, if_pos hm] at h
      obtain ⟨hx, hxs⟩ := List.cons_eq_cons.mp h
      subst hx
      cases rd with
      | failure e => simp [docMatches] at hm
      | ok text =>
        have hsome : (indexOfSub snippet text).isSome = true := by
          simpa [docMatches] using hm
        obtain ⟨i, hi⟩ := Option.isSome_iff_exists.mp hsome
        refine ⟨text, i, rfl, hi, ?_⟩
        rw [scanLoop_cons_some snippet st u text xs i hi,
          if_neg (by omega : ¬ (st.matchCount + 1 > 1))]
        have hnm : ∀ y ∈ xs, docMatches snippet y = false := fun y hy => by
          simpa using List.filter_eq_nil_iff.mp hxs y hy
        rw [scanLoop_no_match snippet xs _ hnm]
        simp [h0]
    · have hm0 : docMatches snippet { uri := u, read := rd } = false := by
        simpa using hm
      rw [List.filter_cons, if_neg (by simp [hm0])] at h
      obtain ⟨text, i, hread, hi, hfst⟩ := ih st d h0 h
      refine ⟨text, i, hread, hi, ?_⟩
      cases rd with
      | failure e => rw [scanLoop_cons_failure]; exact hfst
      | ok t2 =>
        have hnone : indexOfSub snippet t2 = none := by
          cases ho : indexOfSub snippet t2 with
          | none => rfl
          | some k => simp [docMatches, ho] at hm0
        rw [scanLoop_cons_none snippet st u t2 xs hnone]
        exact hfst

/-- With one match already recorded, the next matching member raises the
count to two and the loop breaks there. -/
theorem scanLoop_from_one (snippet : List Char) :
    ∀ (docs : List Doc) (st : MatchState), st.matchCount = 1 →
      (∃ d ∈ docs, docMatches snippet d = true) →
      (scanLoop snippet st docs).1.matchCount = 2 := by
  intro docs
  induction docs with
  | nil =>
    rintro st h1 ⟨d, hd, -⟩
    cases hd
  | cons x xs ih =>
    rintro st h1 ⟨d, hd, hdm⟩
    obtain ⟨u, rd⟩ := x
    by_cases hm : docMatches snippet { uri := u, read := rd } = true
    · cases rd with
      | failure e => simp [docMatches] at hm
      | ok text =>
        have hsome : (indexOfSub snippet text).isSome = true := by
          simpa [docMatches] using hm
        obtain ⟨i, hi⟩ := Option.isSome_iff_exists.mp hsome
        rw [scanLoop_cons_some snippet st u text xs i hi,
          if_pos (by omega : st.matchCount + 1 > 1)]
        simp [h1]
    · have hxs : d ∈ xs := by
        rcases List.mem_cons.mp hd with hcase | hcase
        · exact absurd (hcase ▸ hdm) hm
        · exact hcase
      cases rd with
      | failure e =>
        rw [scanLoop_cons_failure]
        exact ih st h1 ⟨d, hxs, hdm⟩
      | ok t2 =>
        have hm0 : docMatches snippet { uri := u, read := DocRead.ok t2 } = false := by
          simpa using hm
        have hnone : indexOfSub snippet t2 = none := by
          cases ho : indexOfSub snippet t2 with
          | none => rfl
          | some k => simp [docMatches, ho] at hm0
        rw [scanLoop_cons_none snippet st u t2 xs hnone]
        exact ih st h1 ⟨d, hxs, hdm⟩

/-- With two or more matching members, the scan ends with count two. -/
theorem scanLoop_many (snippet : List Char) :
    ∀ (docs : List Doc) (st : MatchState), st.matchCount = 0 →
      2 ≤ (docs.filter (docMatches snippet)).length →
      (scanLoop snippet st docs).1.matchCount = 2 := by
  intro docs
  induction docs with
  | nil => intro st _ h2; simp at h2
  | cons x xs ih =>
    intro st h0 h2
    obtain ⟨u, rd⟩ := x
    by_cases hm : docMatches snippet { uri := u, read := rd } = true
    · cases rd with
      | failure e => simp [docMatches] at hm
      | ok text =>
        have hsome : (indexOfSub snippet text).isSome = true := by
          simpa [docMatches] using hm
        obtain ⟨i, hi⟩ := Option.isSome_iff_exists.mp hsome
        rw [scanLoop_cons_some snippet st u text xs i hi,
          if_neg (by omega : ¬ (st.matchCount + 1 > 1))]
        have hlen : 1 ≤ (xs.filter (docMatches snippet)).length := by
          rw [List.filter_cons, if_pos hm] at h2
          simpa using Nat.le_of_succ_le_succ h2
        obtain ⟨d, hdmem⟩ :=
          List.exists_mem_of_length_pos (by omega :
            0 < (xs.filter (docMatches snippet)).length)
        obtain ⟨hdin, hdm⟩ := List.mem_filter.mp hdmem
        exact scanLoop_from_one snippet xs _ (by simp [h0]) ⟨d, hdin, hdm⟩
    · have hm0 : docMatches snippet { uri := u, read := rd } = false := by
        simpa using hm
      have h2x : 2 ≤ (xs.filter (docMatches snippet)).length := by
        rw [List.filter_cons, if_neg (by simp [hm0])] at h2
        exact h2
      cases rd with
      | failure e =>
        rw [scanLoop_cons_failure]
        exact ih st h0 h2x
      | ok t2 =>
        have hnone : indexOfSub snippet t2 = none := by
          cases ho : indexOfSub snippet t2 with
          | none => rfl
          | some k => simp [docMatches, ho] at hm0
        rw [scanLoop_cons_none snippet st u t2 xs hnone]
        exact ih st h0 h2x

/-- Classification of locals with count one and all fields set. -/
theorem classify_one (u : String) (s e : Nat) :
    classify
        { matchCount := 1, matchFile := some u, matchStart := some s,
          matchEnd := some e }
      = LocateResult.UniqueMatch u s e := rfl

/-- Classification of locals with count zero. -/
theorem classify_zero (f : Option String) (s e : Option Nat) :
    classify
        { matchCount := 0, matchFile := f, matchStart := s, matchEnd := e }
      = LocateResult.NoMatch := by
  cases f <;> cases s <;> cases e <;> rfl

/-- Classification of locals with count two. -/
theorem classify_two (f : Option String) (s e : Option Nat) :
    classify
        { matchCount := 2, matchFile := f, matchStart := s, matchEnd := e }
      = LocateResult.AmbiguousMatch := by
  cases f <;> cases s <;> cases e <;> rfl

/-- Claim C2: the scan's outcome is decided by how many corpus members
open successfully and contain the fragment as a contiguous substring
(the characterization of that test is the first conjunct): none gives
`NoMatch`; exactly one gives `UniqueMatch` carrying that member's uri and
the half-open offsets of the first occurrence of the fragment in it —
start at the least occurrence index, end at start plus fragment length;
two or more give `AmbiguousMatch`. -/
theorem locate_classification (snippet : List Char) (corpus : List Doc) :
    (∀ d, docMatches snippet d = true ↔
        ∃ text i, d.read = DocRead.ok text
          ∧ beginsWith snippet (text.drop i) = true)
    ∧ ((corpus.filter (docMatches snippet)).length = 0 →
        locate snippet corpus = LocateResult.NoMatch)
    ∧ (∀ d, corpus.filter (docMatches snippet) = [d] →
        ∃ text i, d.read = DocRead.ok text
          ∧ beginsWith snippet (text.drop i) = true
          ∧ (∀ j, j < i → beginsWith snippet (text.drop j) = false)
          ∧ locate snippet corpus
              = LocateResult.UniqueMatch d.uri i (i + snippet.length))
    ∧ (2 ≤ (corpus.filter (docMatches snippet)).length →
        locate snippet corpus = LocateResult.AmbiguousMatch) := by
  refine ⟨docMatches_iff snippet, ?_, ?_, ?_⟩
  · intro h0
    have hnil : corpus.filter (docMatches snippet) = [] :=
      List.length_eq_zero.mp h0
    have hnm : ∀ d ∈ corpus, docMatches snippet d = false := fun d hd => by
      simpa using List.filter_eq_nil_iff.mp hnil d hd
    unfold locate
    rw [scanLoop_no_match snippet corpus initMatchState hnm]
    exact classify_zero none none none
  · intro d hd
    obtain ⟨text, i, hread, hi, hfst⟩ :=
      scanLoop_single snippet corpus initMatchState d rfl hd
    obtain ⟨hocc, hfirst⟩ := indexOfSub_some snippet text i hi
    refine ⟨text, i, hread, hocc, hfirst, ?_⟩
    unfold locate
    rw [hfst]
    exact classify_one d.uri i (i + snippet.length)
  · intro h2
    have hcount :=
      scanLoop_many snippet corpus initMatchState rfl h2
    unfold locate
    rcases hstate : (scanLoop snippet initMatchState corpus).1
      with ⟨c, f, s, e⟩
    rw [hstate] at hcount
    simp only at hcount
    subst hcount
    exact classify_two f s e

/-- Witness for C2: on the one-member corpus `[docD1]` whose text `xab`
contains the fragment `ab` once, locate reports a unique match with the
first-occurrence offsets. -/
theorem locate_classification_witness :
    ([docD1].filter (docMatches fragAB) = [docD1])
      ∧ ∃ text i, docD1.read = DocRead.ok text
          ∧ beginsWith fragAB (text.drop i) = true
          ∧ (∀ j, j < i → beginsWith fragAB (text.drop j) = false)
          ∧ locate fragAB [docD1]
              = LocateResult.UniqueMatch docD1.uri i (i + fragAB.length) :=
  ⟨by decide,
   (locate_classification fragAB [docD1]).2.2.1 docD1 (by decide)⟩

/-- Counterexample to claim C7 as stated: on a corpus of three members
all containing the fragment, the accessor is not called exactly once per
member — the loop breaks after the second match and member `C` is never
opened. -/
theorem locate_opened_cex :
    ¬ (∀ d ∈ corpusZZZ, (locateOpened ['z'] corpusZZZ).count d.uri = 1) := by
  decide

/-- Claim C7 (amended): the scan iterates the corpus in caller-provided
order, calling the accessor at most once per member — the opened members
form an initial segment of the corpus — and whenever fewer than two
members match (so the early stop at the second match never fires), the
accessor is called exactly once per corpus member. -/
theorem locate_opened_spec (snippet : List Char) (corpus : List Doc) :
    (∃ k, k ≤ corpus.length
        ∧ locateOpened snippet corpus = (corpus.take k).map Doc.uri)
      ∧ ((corpus.filter (docMatches snippet)).length ≤ 1 →
          locateOpened snippet corpus = corpus.map Doc.uri) := by
  constructor
  · unfold locateOpened
    generalize initMatchState = st
    induction corpus generalizing st with
    | nil => exact ⟨0, Nat.le_refl 0, rfl⟩
    | cons x xs ih =>
      obtain ⟨u, rd⟩ := x
      cases rd with
      | failure e =>
        obtain ⟨k, hk, he⟩ := ih st
        exact ⟨k + 1, Nat.succ_le_succ hk, by simp [scanLoop_cons_failure, he]⟩
      | ok text =>
        cases hi : indexOfSub snippet text with
        | none =>
          obtain ⟨k, hk, he⟩ := ih st
          exact ⟨k + 1, Nat.succ_le_succ hk,
            by simp [scanLoop_cons_none snippet st u text xs hi, he]⟩
        | some i =>
          by_cases hc : st.matchCount + 1 > 1
          · refine ⟨1, by simp, ?_⟩
            rw [scanLoop_cons_some snippet st u text xs i hi, if_pos hc]
            simp
          · obtain ⟨k, hk, he⟩ := ih
              { matchCount := st.matchCount + 1, matchFile := some u,
                matchStart := some i, matchEnd := some (i + snippet.length) }
            refine ⟨k + 1, Nat.succ_le_succ hk, ?_⟩
            rw [scanLoop_cons_some snippet st u text xs i hi, if_neg hc]
            simp [he]
  · intro hle
    unfold locateOpened
    have main : ∀ (docs : List Doc) (st : MatchState), st.matchCount = 0 →
        (docs.filter (docMatches snippet)).length ≤ 1 →
        (scanLoop snippet st docs).2.1 = docs.map Doc.uri := by
      intro docs
      induction docs with
      | nil => intro st _ _; rfl
      | cons x xs ih =>
        intro st h0 h1
        obtain ⟨u, rd⟩ := x
        by_cases hm : docMatches snippet { uri := u, read := rd } = true
        · cases rd with
          | failure e => simp [docMatches] at hm
          | ok text =>
            have hsome : (indexOfSub snippet text).isSome = true := by
              simpa [docMatches] using hm
            obtain ⟨i, hi⟩ := Option.isSome_iff_exists.mp hsome
            rw [scanLoop_cons_some snippet st u text xs i hi,
              if_neg (by omega : ¬ (st.matchCount + 1 > 1))]
            have hxs : xs.filter (docMatches snippet) = [] := by
              rw [List.filter_cons, if_pos hm, List.length_cons] at h1
              exact List.length_eq_zero.mp (by omega)
            have hnm : ∀ y ∈ xs, docMatches snippet y = false := fun y hy => by
              simpa using List.filter_eq_nil_iff.mp hxs y hy
            rw [scanLoop_no_match snippet xs _ hnm]
            simp
        · have hm0 : docMatches snippet { uri := u, read := rd } = false := by
            simpa using hm
          have h1x : (xs.filter (docMatches snippet)).length ≤ 1 := by
            rw [List.filter_cons, if_neg (by simp [hm0])] at h1
            exact h1
          cases rd with
          | failure e =>
            rw [scanLoop_cons_failure]
            simp [ih st h0 h1x]
          | ok t2 =>
            have hnone : indexOfSub snippet t2 = none := by
              cases ho : indexOfSub snippet t2 with
              | none => rfl
              | some k => simp [docMatches, ho] at hm0
            rw [scanLoop_cons_none snippet st u t2 xs hnone]
            simp [ih st h0 h1x]
    exact main corpus initMatchState rfl hle

/-- Witness for C7 (amended): with the fragment `q`, which no member of
`corpusZZZ` contains, every member is opened exactly once, in order. -/
theorem locate_opened_spec_witness :
    ((corpusZZZ.filter (docMatches ['q'])).length ≤ 1)
      ∧ locateOpened ['q'] corpusZZZ = corpusZZZ.map Doc.uri :=
  ⟨by decide, (locate_opened_spec ['q'] corpusZZZ).2 (by decide)⟩

/-- Claim C8: a member whose accessor throws contributes no match — the
loop state and result are those of the scan of the remaining members —
its uri is logged by the catch branch, it still counts as one accessor
call, and the overall locate call classifies as if the member were
simply skipped, never aborting. -/
theorem scanLoop_failure_skipped (snippet : List Char) (st : MatchState)
    (u msg : String) (rest : List Doc) :
    scanLoop snippet st ({ uri := u, read := DocRead.failure msg } :: rest)
        = ((scanLoop snippet st rest).1,
           u :: (scanLoop snippet st rest).2.1,
           u :: (scanLoop snippet st rest).2.2)
      ∧ locate snippet ({ uri := u, read := DocRead.failure msg } :: rest)
          = locate snippet rest
      ∧ u ∈ locateLogged snippet
          ({ uri := u, read := DocRead.failure msg } :: rest) :=
  ⟨rfl, rfl, List.mem_cons_self u _⟩

end FileRefTags
